import Mathlib

/-!
Shallow embedding of the measurement core of the `benchmarking` crate.

Modelling conventions:
* A `std::time::Duration` is modelled as its total number of nanoseconds
  (`Nat`); `u64`/`u128` counters are modelled as `Nat` (no arithmetic in the
  embedded code approaches the overflow bounds for the inputs we consider).
* The monotonic clock is an external collaborator: every operation that reads
  the clock takes the sequence of readings it will observe as an explicit
  argument (one duration per timed span, one elapsed reading per deadline
  check).
* Rust closures (`FnMut`) are modelled as explicit state transformers
  `sigma -> _ -> sigma x _`, so that facts such as "the callback was invoked
  exactly N times" are observable in the final closure state.
* A Rust `panic!` is modelled by `none`; unbounded `loop`s take a fuel
  argument, and exhausting the fuel also yields `none` (the loop had not yet
  reached its own exit condition).
-/

/-- Embedding of `MeasureResult` from `src/measure_result.rs`: `times` is the
`u128` count of recorded spans, `total_elapsed` the summed duration in
nanoseconds. -/
structure MeasureResult where
  times : Nat
  total_elapsed : Nat
deriving DecidableEq

/-- Embedding of `MeasureResult::new` (a single span). -/
def MeasureResult.new (elapsed : Nat) : MeasureResult :=
  ⟨1, elapsed⟩

/-- Embedding of `MeasureResult::empty`. -/
def MeasureResult.empty : MeasureResult :=
  ⟨0, 0⟩

/-- Embedding of `MeasureResult::elapsed` (src/measure_result.rs lines 27-37):
average latency; computes `total_elapsed.as_nanos() / times`, splits it into
whole seconds and the nanosecond remainder, and rebuilds the duration
(`Duration::new(secs, nanos)`, re-expressed here as total nanoseconds). -/
def MeasureResult.elapsed (r : MeasureResult) : Nat :=
  let nano_secs := r.total_elapsed / r.times
  let secs := nano_secs / 1000000000
  let nanos := nano_secs % 1000000000
  secs * 1000000000 + nanos

/-- Embedding of Rust `impl Div<u32> for Duration`, used by
`measure_result.total_elapsed /= number_of_threads as u32` in src/src/lib.rs:
divides the seconds part, folds the remainder seconds into nanoseconds, and
divides the nanosecond part, exactly as the standard library does. -/
def durationDivU32 (t r : Nat) : Nat :=
  let secs := t / 1000000000
  let nanos := t % 1000000000
  secs / r * 1000000000 + secs % r * 1000000000 / r + nanos / r

/-- Embedding of `BenchmarkError` from src/src/lib.rs lines 130-133. -/
inductive BenchmarkError where
  | MeasurerNotMeasured
deriving DecidableEq

/-- Embedding of `MeasureLoopResult` from src/src/measurer.rs lines 3-8. -/
inductive MeasureLoopResult where
  | Continue
  | Break
deriving DecidableEq

/-- Embedding of the `Measurer` struct declared in src/src/measurer.rs lines
17-22: a sequence counter and the optional recorded outcome (`Ok` duration or
the `SystemTimeError`, whose payload we model as `Unit`). -/
structure Measurer where
  seq : Nat
  elapsed : Option (Except Unit Nat)

/-- Embedding of `Measurer::default()` (derived `Default`: zero and `None`). -/
def Measurer.default : Measurer :=
  ⟨0, none⟩

/-- Embedding of `Measurer::is_measured` (src/src/measurer.rs lines 37-41):
returns whether `elapsed` is `None`. -/
def Measurer.is_measured (m : Measurer) : Bool :=
  m.elapsed.isNone

/-- Embedding of `Measurer::measure` (src/src/measurer.rs lines 45-55): if not
yet measured, runs the closure `work` once (with explicit closure state) and
records the clock reading `span`; otherwise it executes
`panic!("this measurer has been measured")`, modelled by `none`. -/
def Measurer.measure {σ : Type} (m : Measurer) (work : σ → σ) (span : Except Unit Nat)
    (s : σ) : Option (σ × Measurer) :=
  if m.is_measured then some (work s, ⟨m.seq, some span⟩) else none

/-- Embedding of the duration reconstruction shared by the loop protocols of
src/src/measurer.rs (for example lines 79-84): the truncating average
`duration_sum / loop_seq` split into seconds and nanoseconds and re-added. -/
def avgDuration (duration_sum loop_seq : Nat) : Nat :=
  let elapsed := duration_sum / loop_seq
  elapsed / 1000000000 * 1000000000 + elapsed % 1000000000

/-- Embedding of the post-loop finalization of `measure_for_loop` and
`measure_while_loop` (src/src/measurer.rs lines 142-149 and 196-203): if at
least one iteration completed, store the averaged duration, else leave the
measurer unmeasured. -/
def mflFinish (seq duration_sum loop_seq : Nat) : Measurer :=
  if 0 < loop_seq then ⟨seq, some (Except.ok (avgDuration duration_sum loop_seq))⟩
  else ⟨seq, none⟩

/-- Embedding of the body of `Measurer::measure_loop` (src/src/measurer.rs lines
58-103): repeatedly time `f loop_seq` until it answers `Break`; on `Break`
store the averaged duration, on a clock error store that error.  `spans` gives
the clock's reading for each iteration; `fuel` bounds the unbounded `loop`. -/
def measure_loop_go {σ : Type} (f : σ → Nat → σ × MeasureLoopResult)
    (spans : Nat → Except Unit Nat) (seq : Nat) :
    Nat → Nat → Nat → σ → Option (σ × Measurer)
  | 0, _, _, _ => none
  | fuel + 1, loop_seq, duration_sum, s =>
    let p := f s loop_seq
    match spans loop_seq with
    | Except.error e => some (p.1, ⟨seq, some (Except.error e)⟩)
    | Except.ok d =>
      match p.2 with
      | MeasureLoopResult.Break =>
        some (p.1, ⟨seq, some (Except.ok (avgDuration (duration_sum + d) (loop_seq + 1)))⟩)
      | MeasureLoopResult.Continue =>
        measure_loop_go f spans seq fuel (loop_seq + 1) (duration_sum + d) p.1

/-- Embedding of `Measurer::measure_loop` (src/src/measurer.rs lines 58-103);
the `panic!` taken when the measurer is already measured is modelled by
`none`. -/
def Measurer.measure_loop {σ : Type} (m : Measurer) (f : σ → Nat → σ × MeasureLoopResult)
    (spans : Nat → Except Unit Nat) (fuel : Nat) (s : σ) : Option (σ × Measurer) :=
  if m.is_measured then measure_loop_go f spans m.seq fuel 0 0 s else none

/-- Embedding of the `for` loop of `Measurer::measure_for_loop`
(src/src/measurer.rs lines 112-149): consume the input sequence, timing `f` on
each element, stopping early on `Break` or on a clock error (the error is
stored and the post-loop finalization is skipped); otherwise finalize with the
averaged duration once the sequence is exhausted. -/
def measure_for_loop_go {σ α : Type} (f : σ → α → σ × MeasureLoopResult)
    (spans : Nat → Except Unit Nat) (seq : Nat) :
    List α → Nat → Nat → Nat → σ → σ × Measurer
  | [], _, duration_sum, loop_seq, s => (s, mflFinish seq duration_sum loop_seq)
  | x :: xs, k, duration_sum, loop_seq, s =>
    let p := f s x
    match spans k with
    | Except.error e => (p.1, ⟨seq, some (Except.error e)⟩)
    | Except.ok d =>
      match p.2 with
      | MeasureLoopResult.Break => (p.1, mflFinish seq (duration_sum + d) (loop_seq + 1))
      | MeasureLoopResult.Continue =>
        measure_for_loop_go f spans seq xs (k + 1) (duration_sum + d) (loop_seq + 1) p.1

/-- Embedding of `Measurer::measure_for_loop` (src/src/measurer.rs lines
106-153); the `panic!` on an already-measured measurer is modelled by
`none`. -/
def Measurer.measure_for_loop {σ α : Type} (m : Measurer)
    (f : σ → α → σ × MeasureLoopResult) (spans : Nat → Except Unit Nat)
    (xs : List α) (s : σ) : Option (σ × Measurer) :=
  if m.is_measured then some (measure_for_loop_go f spans m.seq xs 0 0 0 s) else none

/-- Embedding of the `loop` of `Measurer::measure_while_loop`
(src/src/measurer.rs lines 162-203): evaluate the predicate `g` before each
iteration, stopping (and finalizing) when it is false; otherwise time `f`,
honoring `Break` and clock errors as in the other loop protocols. -/
def measure_while_loop_go {σ : Type} (g : σ → Nat → σ × Bool)
    (f : σ → Nat → σ × MeasureLoopResult) (spans : Nat → Except Unit Nat) (seq : Nat) :
    Nat → Nat → Nat → σ → Option (σ × Measurer)
  | 0, _, _, _ => none
  | fuel + 1, loop_seq, duration_sum, s =>
    let q := g s loop_seq
    if q.2 then
      let p := f q.1 loop_seq
      match spans loop_seq with
      | Except.error e => some (p.1, ⟨seq, some (Except.error e)⟩)
      | Except.ok d =>
        match p.2 with
        | MeasureLoopResult.Break => some (p.1, mflFinish seq (duration_sum + d) (loop_seq + 1))
        | MeasureLoopResult.Continue =>
          measure_while_loop_go g f spans seq fuel (loop_seq + 1) (duration_sum + d) p.1
    else some (q.1, mflFinish seq duration_sum loop_seq)

/-- Embedding of `Measurer::measure_while_loop` (src/src/measurer.rs lines
156-207); the `panic!` on an already-measured measurer is modelled by
`none`. -/
def Measurer.measure_while_loop {σ : Type} (m : Measurer) (g : σ → Nat → σ × Bool)
    (f : σ → Nat → σ × MeasureLoopResult) (spans : Nat → Except Unit Nat)
    (fuel : Nat) (s : σ) : Option (σ × Measurer) :=
  if m.is_measured then measure_while_loop_go g f spans m.seq fuel 0 0 s else none

/-- Embedding of the `Measurer` revision that src/src/lib.rs compiles against,
reconstructed from its field uses there (`measurer.seq`, `measurer.result`,
`measurer.pass`, `Measurer::default()`); the declaration in
src/src/measurer.rs is an earlier revision of the same type (the `Measurer`
structure above). -/
structure MeasurerLib where
  seq : Nat
  result : Option MeasureResult
  pass : Bool
deriving DecidableEq

/-- Embedding of `Measurer::default()` for the lib.rs revision: zero sequence,
no result, `pass` unset. -/
def MeasurerLib.default : MeasurerLib :=
  ⟨0, none, false⟩

/-- Embedding of the `for _ in 1..times` loop of `measure_function_with_times`
(src/src/lib.rs lines 222-236): run the callback, clear the `pass` flag (a
passed repetition contributes nothing), otherwise take the repetition's result
and add its fields into the accumulator, propagating `MeasurerNotMeasured`
immediately (the `?` operator) when the repetition neither measured nor
passed; `measurer.seq` is incremented at the end of each iteration. -/
def mft_loop {σ : Type} (f : σ → MeasurerLib → σ × MeasurerLib) :
    Nat → σ → MeasurerLib → MeasureResult → σ × Except BenchmarkError MeasureResult
  | 0, s, _, acc => (s, Except.ok acc)
  | n + 1, s, m, acc =>
    let p := f s m
    if p.2.pass then
      mft_loop f n p.1 { p.2 with pass := false, result := none, seq := p.2.seq + 1 } acc
    else
      match p.2.result with
      | some r =>
        mft_loop f n p.1 { p.2 with result := none, seq := p.2.seq + 1 }
          ⟨acc.times + r.times, acc.total_elapsed + r.total_elapsed⟩
      | none => (p.1, Except.error BenchmarkError.MeasurerNotMeasured)

/-- Embedding of `measure_function_with_times` (src/src/lib.rs lines 201-239):
one unconditional first repetition whose extracted result (or
`MeasureResult::empty()` on `pass`) seeds the accumulator, then the
`for _ in 1..times` loop.  The callback's closure state is threaded
explicitly and returned alongside the result. -/
def measure_function_with_times {σ : Type} (times : Nat)
    (f : σ → MeasurerLib → σ × MeasurerLib) (s : σ) :
    σ × Except BenchmarkError MeasureResult :=
  let p := f s MeasurerLib.default
  if p.2.pass then
    mft_loop f (times - 1) p.1 { p.2 with pass := false, result := none } MeasureResult.empty
  else
    match p.2.result with
    | some r => mft_loop f (times - 1) p.1 { p.2 with result := none } r
    | none => (p.1, Except.error BenchmarkError.MeasurerNotMeasured)

/-- Embedding of the `loop` of `bench_function_with_duration` (src/src/lib.rs
lines 271-289): each iteration runs the callback, folds the repetition's
result into the accumulator (or clears a `pass`), and only then checks
`start.elapsed() >= duration`, breaking with the accumulated result; `clock c`
is the elapsed reading observed at the c-th check, and `fuel` bounds the
unbounded `loop` (`none` means the budget was never reached within the
fuel). -/
def bfd_loop {σ : Type} (f : σ → MeasurerLib → σ × MeasurerLib) (clock : Nat → Nat)
    (duration : Nat) :
    Nat → Nat → σ → MeasurerLib → MeasureResult →
      Option (σ × Except BenchmarkError MeasureResult)
  | 0, _, _, _, _ => none
  | fuel + 1, c, s, m, acc =>
    let p := f s m
    if p.2.pass then
      if duration ≤ clock c then some (p.1, Except.ok acc)
      else
        bfd_loop f clock duration fuel (c + 1) p.1
          { p.2 with pass := false, result := none, seq := p.2.seq + 1 } acc
    else
      match p.2.result with
      | some r =>
        let acc' : MeasureResult :=
          ⟨acc.times + r.times, acc.total_elapsed + r.total_elapsed⟩
        if duration ≤ clock c then some (p.1, Except.ok acc')
        else
          bfd_loop f clock duration fuel (c + 1) p.1
            { p.2 with result := none, seq := p.2.seq + 1 } acc'
      | none => some (p.1, Except.error BenchmarkError.MeasurerNotMeasured)

/-- Embedding of `bench_function_with_duration` (src/src/lib.rs lines 250-292):
one unconditional first repetition seeds the accumulator, then the
duration-bounded loop runs with the deadline checked only after each
repetition. -/
def bench_function_with_duration {σ : Type} (duration : Nat) (clock : Nat → Nat)
    (fuel : Nat) (f : σ → MeasurerLib → σ × MeasurerLib) (s : σ) :
    Option (σ × Except BenchmarkError MeasureResult) :=
  let p := f s MeasurerLib.default
  if p.2.pass then
    bfd_loop f clock duration fuel 0 p.1 { p.2 with pass := false, result := none }
      MeasureResult.empty
  else
    match p.2.result with
    | some r => bfd_loop f clock duration fuel 0 p.1 { p.2 with result := none } r
    | none => some (p.1, Except.error BenchmarkError.MeasurerNotMeasured)

/-- Embedding of the `loop` of the background worker spawned by
`multi_thread_bench_function_with_duration` (src/src/lib.rs lines 344-363).
Unlike the foreground loop, a missing measurement here is hit with
`.ok_or(..).unwrap()`: the thread panics and nothing is ever sent on the
channel, modelled by `some none`.  `some (some _)` is the value passed to
`tx.send`; the outer `none` means the fuel ran out before the deadline. -/
def mtb_worker_loop {σ : Type} (f : σ → MeasurerLib → σ × MeasurerLib)
    (clock : Nat → Nat) (duration : Nat) :
    Nat → Nat → σ → MeasurerLib → MeasureResult → Option (Option (σ × MeasureResult))
  | 0, _, _, _, _ => none
  | fuel + 1, c, s, m, acc =>
    let p := f s m
    if p.2.pass then
      if duration ≤ clock c then some (some (p.1, acc))
      else
        mtb_worker_loop f clock duration fuel (c + 1) p.1
          { p.2 with pass := false, result := none, seq := p.2.seq + 1 } acc
    else
      match p.2.result with
      | some r =>
        let acc' : MeasureResult :=
          ⟨acc.times + r.times, acc.total_elapsed + r.total_elapsed⟩
        if duration ≤ clock c then some (some (p.1, acc'))
        else
          mtb_worker_loop f clock duration fuel (c + 1) p.1
            { p.2 with result := none, seq := p.2.seq + 1 } acc'
      | none => some none

/-- Embedding of the whole background-thread closure of
`multi_thread_bench_function_with_duration` (src/src/lib.rs lines 330-366):
first unconditional repetition (whose missing measurement is also
`.unwrap()`ed, i.e. a panic, modelled by `some none`), then the worker loop;
`some (some r)` means `r` was sent on the result channel, `some none` means
the thread panicked and sent nothing. -/
def mtb_worker_run {σ : Type} (duration : Nat) (clock : Nat → Nat) (fuel : Nat)
    (f : σ → MeasurerLib → σ × MeasurerLib) (s : σ) :
    Option (Option (σ × MeasureResult)) :=
  let p := f s MeasurerLib.default
  if p.2.pass then
    mtb_worker_loop f clock duration fuel 0 p.1 { p.2 with pass := false, result := none }
      MeasureResult.empty
  else
    match p.2.result with
    | some r => mtb_worker_loop f clock duration fuel 0 p.1 { p.2 with result := none } r
    | none => some none

/-- Embedding of the result-collection phase of
`multi_thread_bench_function_with_duration` (src/src/lib.rs lines 404-411):
fold every received worker result into the foreground result by summing both
fields, then divide `total_elapsed` by the thread count exactly once at the
end. -/
def mtb_collect (number_of_threads : Nat) (fore : MeasureResult)
    (workers : List MeasureResult) : MeasureResult :=
  let m := workers.foldl
    (fun acc r => ⟨acc.times + r.times, acc.total_elapsed + r.total_elapsed⟩) fore
  ⟨m.times, durationDivU32 m.total_elapsed number_of_threads⟩

/-- Embedding of the result-collection phase of
`multi_thread_bench_function_n_with_duration` (src/src/lib.rs lines 726-739):
for each received worker vector, add it slot-wise into the foreground vector
and then - still inside the receive loop - divide every slot's
`total_elapsed` by the thread count. -/
def mtbn_collect (number_of_threads : Nat) (fore : List MeasureResult)
    (workers : List (List MeasureResult)) : List MeasureResult :=
  workers.foldl
    (fun acc results =>
      (List.zipWith
          (fun a r =>
            (⟨a.times + r.times, a.total_elapsed + r.total_elapsed⟩ : MeasureResult))
          acc results).map
        fun r => ⟨r.times, durationDivU32 r.total_elapsed number_of_threads⟩)
    fore

/-- A canonical family of callbacks for the lib.rs orchestrators: the closure
state is the number of invocations made so far, and on its k-th invocation the
callback leaves the measurer's `pass` flag and `result` field as dictated by
`script k`.  This models a Rust `FnMut` closure whose observable effect on the
measurer depends only on how many times it has been called. -/
def scripted (script : Nat → Bool × Option MeasureResult) :
    Nat → MeasurerLib → Nat × MeasurerLib :=
  fun k m => (k + 1, { m with pass := (script k).1, result := (script k).2 })

/-- The contribution a scripted repetition makes to the running accumulator:
nothing for a passed repetition, its recorded result otherwise. -/
def contrib (p : Bool × Option MeasureResult) : MeasureResult :=
  if p.1 then MeasureResult.empty else p.2.getD MeasureResult.empty

/-- A scripted repetition that does not trip the missing-measurement error:
it either passes or has recorded a result. -/
def scriptOk (p : Bool × Option MeasureResult) : Prop :=
  p.1 = true ∨ p.2.isSome = true

/-- Splitting off the first summand of a sum over `range (n + 1)` of a function
evaluated at offsets of `k`. -/
theorem sum_shift (g : Nat → Nat) (k n : Nat) :
    ∑ i in Finset.range (n + 1), g (k + i) =
      g k + ∑ i in Finset.range n, g (k + 1 + i) := by
  rw [Finset.sum_range_succ']
  simp only [Nat.add_zero]
  rw [Nat.add_comm]
  congr 1
  exact Finset.sum_congr rfl fun i _ => by
    rw [show k + (i + 1) = k + 1 + i from by omega]

/-- Characterization of the fixed-count loop on a scripted callback when every
remaining repetition either passes or records a result: the loop completes all
`n` repetitions, invoking the callback once per repetition, and the final
accumulator adds every repetition's contribution to the incoming one. -/
theorem mft_loop_scripted_ok (script : Nat → Bool × Option MeasureResult) (n : Nat) :
    ∀ (k : Nat) (m : MeasurerLib) (acc : MeasureResult),
      (∀ i, i < n → scriptOk (script (k + i))) →
      mft_loop (scripted script) n k m acc =
        (k + n,
          Except.ok
            ⟨acc.times + ∑ i in Finset.range n, (contrib (script (k + i))).times,
             acc.total_elapsed +
               ∑ i in Finset.range n, (contrib (script (k + i))).total_elapsed⟩) := by
  induction n with
  | zero => intro k m acc _; simp [mft_loop]
  | succ n ih =>
    intro k m acc h
    have h0 : scriptOk (script k) := by
      simpa using h 0 (Nat.succ_pos n)
    have hs : ∀ i, i < n → scriptOk (script (k + 1 + i)) := by
      intro i hi
      have := h (i + 1) (Nat.succ_lt_succ hi)
      simpa [show k + (i + 1) = k + 1 + i from by omega] using this
    rcases hsk : script k with ⟨b, ro⟩
    cases b with
    | true =>
      have e1 : contrib (script k) = MeasureResult.empty := by simp [contrib, hsk]
      rw [mft_loop]
      simp only [scripted, hsk]
      simp only [if_true]
      rw [ih (k + 1) _ acc hs,
        sum_shift (fun j => (contrib (script j)).times) k n,
        sum_shift (fun j => (contrib (script j)).total_elapsed) k n]
      simp only [Prod.mk.injEq, Except.ok.injEq, MeasureResult.mk.injEq, e1,
        MeasureResult.empty]
      refine ⟨by omega, by omega, by omega⟩
    | false =>
      cases ro with
      | none =>
        exact absurd h0 (by simp [scriptOk, hsk])
      | some r =>
        have e1 : contrib (script k) = r := by simp [contrib, hsk]
        rw [mft_loop]
        simp only [scripted, hsk]
        simp only [Bool.false_eq_true, if_false]
        rw [ih (k + 1) _ _ hs,
          sum_shift (fun j => (contrib (script j)).times) k n,
          sum_shift (fun j => (contrib (script j)).total_elapsed) k n]
        simp only [Prod.mk.injEq, Except.ok.injEq, MeasureResult.mk.injEq, e1]
        refine ⟨by omega, by omega, by omega⟩

/-- Characterization of the fixed-count loop when the repetition `j` steps from
now neither passes nor records: the loop stops right there with the
missing-measurement error, performing exactly `j + 1` further callback
invocations and discarding the accumulator. -/
theorem mft_loop_scripted_err (script : Nat → Bool × Option MeasureResult) (j : Nat) :
    ∀ (n k : Nat) (m : MeasurerLib) (acc : MeasureResult),
      j < n → (∀ i, i < j → scriptOk (script (k + i))) → script (k + j) = (false, none) →
      mft_loop (scripted script) n k m acc =
        (k + j + 1, Except.error BenchmarkError.MeasurerNotMeasured) := by
  induction j with
  | zero =>
    intro n k m acc hj _ hfail
    obtain ⟨n', rfl⟩ : ∃ n', n = n' + 1 := ⟨n - 1, by omega⟩
    rw [mft_loop]
    simp only [scripted]
    simp only [Nat.add_zero] at hfail
    simp [hfail]
  | succ j ih =>
    intro n k m acc hj hok hfail
    obtain ⟨n', rfl⟩ : ∃ n', n = n' + 1 := ⟨n - 1, by omega⟩
    have h0 : scriptOk (script k) := by simpa using hok 0 (Nat.succ_pos j)
    have hok' : ∀ i, i < j → scriptOk (script (k + 1 + i)) := by
      intro i hi
      have := hok (i + 1) (Nat.succ_lt_succ hi)
      simpa [show k + (i + 1) = k + 1 + i from by omega] using this
    have hfail' : script (k + 1 + j) = (false, none) := by
      rw [show k + 1 + j = k + (j + 1) from by omega]; exact hfail
    have hj' : j < n' := by omega
    have goal_eq : k + 1 + j + 1 = k + (j + 1) + 1 := by omega
    rcases hsk : script k with ⟨b, ro⟩
    cases b with
    | true =>
      rw [mft_loop]
      simp only [scripted, hsk, if_true]
      rw [ih n' (k + 1) _ acc hj' hok' hfail', goal_eq]
    | false =>
      cases ro with
      | none => exact absurd h0 (by simp [scriptOk, hsk])
      | some r =>
        rw [mft_loop]
        simp only [scripted, hsk, Bool.false_eq_true, if_false]
        rw [ih n' (k + 1) _ _ hj' hok' hfail', goal_eq]

/-- Characterization of `measure_function_with_times` on a scripted callback
with no failing repetition: the callback is invoked exactly `N` times (the
final closure counter is `N`) and the result sums the `N` per-repetition
contributions. -/
theorem measure_function_with_times_scripted (script : Nat → Bool × Option MeasureResult)
    (N : Nat) (hN : 1 ≤ N) (h : ∀ i, i < N → scriptOk (script i)) :
    measure_function_with_times N (scripted script) 0 =
      (N,
        Except.ok
          ⟨∑ i in Finset.range N, (contrib (script i)).times,
           ∑ i in Finset.range N, (contrib (script i)).total_elapsed⟩) := by
  obtain ⟨M, rfl⟩ : ∃ M, N = M + 1 := ⟨N - 1, by omega⟩
  have h0 : scriptOk (script 0) := h 0 (Nat.succ_pos M)
  have hs : ∀ i, i < M → scriptOk (script (1 + i)) := fun i hi => h (1 + i) (by omega)
  have hsum_t : ∑ i in Finset.range (M + 1), (contrib (script i)).times =
      (contrib (script 0)).times + ∑ i in Finset.range M, (contrib (script (1 + i))).times := by
    simpa using sum_shift (fun j => (contrib (script j)).times) 0 M
  have hsum_e : ∑ i in Finset.range (M + 1), (contrib (script i)).total_elapsed =
      (contrib (script 0)).total_elapsed +
        ∑ i in Finset.range M, (contrib (script (1 + i))).total_elapsed := by
    simpa using sum_shift (fun j => (contrib (script j)).total_elapsed) 0 M
  rcases hsk : script 0 with ⟨b, ro⟩
  cases b with
  | true =>
    have e1 : contrib (script 0) = MeasureResult.empty := by simp [contrib, hsk]
    rw [measure_function_with_times]
    simp only [scripted, hsk, if_true, Nat.add_sub_cancel]
    rw [mft_loop_scripted_ok script M 1 _ MeasureResult.empty hs, hsum_t, hsum_e]
    simp only [Prod.mk.injEq, Except.ok.injEq, MeasureResult.mk.injEq, e1,
      MeasureResult.empty, and_true, true_and]
    first
    | trivial
    | omega
  | false =>
    cases ro with
    | none => exact absurd h0 (by simp [scriptOk, hsk])
    | some r =>
      have e1 : contrib (script 0) = r := by simp [contrib, hsk]
      rw [measure_function_with_times]
      simp only [scripted, hsk, Bool.false_eq_true, if_false, Nat.add_sub_cancel]
      rw [mft_loop_scripted_ok script M 1 _ r hs, hsum_t, hsum_e]
      simp only [Prod.mk.injEq, Except.ok.injEq, MeasureResult.mk.injEq, e1, and_true,
        true_and]
      omega

/-- Lower bound for the duration-bounded loop on an always-measuring scripted
callback: whenever some deadline check within the fuel bound succeeds, the
loop returns a merged result whose span count is at least the incoming
accumulator's. -/
theorem bfd_loop_times_lower (script : Nat → Bool × Option MeasureResult)
    (clock : Nat → Nat) (duration : Nat)
    (hmeas : ∀ i, (script i).1 = false ∧ ∃ r, (script i).2 = some r ∧ 1 ≤ r.times)
    (fuel : Nat) :
    ∀ (c k : Nat) (m : MeasurerLib) (acc : MeasureResult),
      (∃ i, i < fuel ∧ duration ≤ clock (c + i)) →
      ∃ s' res,
        bfd_loop (scripted script) clock duration fuel c k m acc =
            some (s', Except.ok res) ∧
          acc.times ≤ res.times := by
  induction fuel with
  | zero => intro c k m acc h; exact absurd h (by simp)
  | succ fuel ih =>
    intro c k m acc h
    obtain ⟨hb, r, hr, hrt⟩ := hmeas k
    rw [bfd_loop]
    simp only [scripted, hb, hr, Bool.false_eq_true, if_false]
    by_cases hc : duration ≤ clock c
    · refine ⟨k + 1, ⟨acc.times + r.times, acc.total_elapsed + r.total_elapsed⟩, ?_, ?_⟩
      · simp [hc]
      · change acc.times ≤ acc.times + r.times
        omega
    · obtain ⟨i, hi, hcl⟩ := h
      have hi0 : i ≠ 0 := fun h0 => hc (by rw [h0, Nat.add_zero] at hcl; exact hcl)
      obtain ⟨i', rfl⟩ : ∃ i', i = i' + 1 := ⟨i - 1, by omega⟩
      obtain ⟨s', res, heq, hle⟩ := ih (c + 1) (k + 1) ⟨m.seq + 1, none, false⟩
        ⟨acc.times + r.times, acc.total_elapsed + r.total_elapsed⟩
        ⟨i', by omega, by rw [show c + 1 + i' = c + (i' + 1) from by omega]; exact hcl⟩
      refine ⟨s', res, ?_, ?_⟩
      · rw [if_neg hc]
        exact heq
      · change acc.times + r.times ≤ res.times at hle
        omega

/-- Claim C1: for multi-thread runs, the merged `times` is the sum of the
per-thread `times` and the merged `total_elapsed` is the per-thread sum
divided exactly once by the thread count; with four threads each contributing
`(times = 10, total_elapsed = 1000ms)` the merged result is
`(40, 1000ms)`.  The single-metric collection phase does behave this way, but
the N-wide collection phase divides by the thread count inside the receive
loop - here three times for four threads - so the same four per-thread
results merge to `total_elapsed = 343750000ns`, not `1000000000ns`; this
theorem evaluates both collection phases at that input. -/
theorem multi_thread_merge_divides_repeatedly :
    mtb_collect 4 ⟨10, 1000000000⟩
        [⟨10, 1000000000⟩, ⟨10, 1000000000⟩, ⟨10, 1000000000⟩] = ⟨40, 1000000000⟩ ∧
    mtbn_collect 4 [⟨10, 1000000000⟩]
        [[⟨10, 1000000000⟩], [⟨10, 1000000000⟩], [⟨10, 1000000000⟩]]
        = [⟨40, 343750000⟩] ∧
    (343750000 : Nat) ≠ 1000000000 := by
  refine ⟨?_, ?_, by decide⟩ <;> rfl

/-- Claim C2: the claim says every `Measurer::measure` call succeeds without
panicking, a second call within the same repetition included, accumulating
into the per-repetition result.  On the source the first call on a fresh
measurer does record its span, but the second call on the same measurer takes
the `panic!("this measurer has been measured")` branch (modelled by `none`):
it neither succeeds nor accumulates. -/
theorem measure_panics_on_second_call (d₁ d₂ : Nat) :
    Measurer.default.measure id (Except.ok d₁) () = some ((), ⟨0, some (Except.ok d₁)⟩) ∧
    (Measurer.mk 0 (some (Except.ok d₁))).measure id (Except.ok d₂) () = none :=
  ⟨rfl, rfl⟩

/-- Claim C3: for every `N >= 1`, `measure_function_with_times N f` invokes the
callback exactly `N` times (the final closure counter below is `N`), and when
every repetition records exactly one span of duration `d k`, the returned
result has `times = N` and `total_elapsed` equal to the exact sum of the `N`
span durations. -/
theorem measure_function_with_times_count_and_total (N : Nat) (d : Nat → Nat)
    (hN : 1 ≤ N) :
    measure_function_with_times N
        (scripted fun k => (false, some ⟨1, d k⟩)) 0 =
      (N, Except.ok ⟨N, ∑ k in Finset.range N, d k⟩) := by
  rw [measure_function_with_times_scripted _ N hN (fun i _ => Or.inr (by simp))]
  have e1 : ∀ k, contrib ((fun k => ((false : Bool), some (⟨1, d k⟩ : MeasureResult))) k)
      = ⟨1, d k⟩ := fun k => by simp [contrib]
  simp only [e1]
  simp [Finset.sum_add_distrib]

/-- Witness for claim C3 at `N = 3` with span durations `5, 6, 7`. -/
theorem measure_function_with_times_count_and_total_witness :
    1 ≤ 3 ∧
      measure_function_with_times 3
          (scripted fun k => (false, some ⟨1, k + 5⟩)) 0 =
        (3, Except.ok ⟨3, ∑ k in Finset.range 3, (k + 5)⟩) :=
  ⟨by decide, measure_function_with_times_count_and_total 3 (fun k => k + 5) (by decide)⟩

/-- Claim C4: if repetition `j` of a fixed-count run neither measures nor
passes (and every earlier repetition measured), the orchestrator returns the
missing-measurement error having invoked the callback exactly `j + 1` times -
so for a failing first repetition exactly once - and no partial result is
returned: everything accumulated before the failing repetition is dropped. -/
theorem measure_function_with_times_missing_aborts (N j : Nat) (d : Nat → Nat)
    (hj : j < N) :
    measure_function_with_times N
        (scripted fun k => if k = j then (false, none) else (false, some ⟨1, d k⟩)) 0 =
      (j + 1, Except.error BenchmarkError.MeasurerNotMeasured) := by
  cases j with
  | zero =>
    rw [measure_function_with_times]
    simp [scripted]
  | succ j' =>
    rw [measure_function_with_times]
    have h0 : (if (0 : Nat) = j' + 1 then ((false : Bool), (none : Option MeasureResult))
        else (false, some ⟨1, d 0⟩)) = (false, some ⟨1, d 0⟩) := by simp
    simp only [scripted, h0, Bool.false_eq_true, if_false]
    have := mft_loop_scripted_err
      (fun k => if k = j' + 1 then ((false : Bool), (none : Option MeasureResult))
        else (false, some ⟨1, d k⟩)) j' (N - 1) 1
    rw [this _ _ (by omega) (fun i hi => by
        have : 1 + i ≠ j' + 1 := by omega
        simp [scriptOk, this])
      (by simp [show 1 + j' = j' + 1 from by omega])]
    rw [show 1 + j' + 1 = j' + 1 + 1 from by omega]

/-- Witness for claim C4: a run of three repetitions whose second repetition
fails stops after two callback invocations with the error. -/
theorem measure_function_with_times_missing_aborts_witness :
    1 < 3 ∧
      measure_function_with_times 3
          (scripted fun k => if k = 1 then (false, none) else (false, some ⟨1, 5⟩)) 0 =
        (2, Except.error BenchmarkError.MeasurerNotMeasured) :=
  ⟨by decide, measure_function_with_times_missing_aborts 3 1 (fun _ => 5) (by decide)⟩

/-- Claim C5: a repetition that only calls the pass ("skip") signal contributes
an empty result - adding `0` to the running count and `0` to the running
total, as the `if`-summands below show - and does not trip the
missing-measurement error; all other repetitions contribute normally and the
run completes all `N` repetitions. -/
theorem measure_function_with_times_skip_contributes_empty (N j : Nat) (d : Nat → Nat)
    (hj : j < N) :
    measure_function_with_times N
        (scripted fun k => if k = j then (true, none) else (false, some ⟨1, d k⟩)) 0 =
      (N,
        Except.ok
          ⟨∑ k in Finset.range N, (if k = j then 0 else 1),
           ∑ k in Finset.range N, (if k = j then 0 else d k)⟩) := by
  rw [measure_function_with_times_scripted _ N (by omega) (fun i _ => by
    by_cases hij : i = j <;> simp [scriptOk, hij])]
  have e1 : ∀ k, contrib ((fun k =>
        if k = j then ((true : Bool), (none : Option MeasureResult))
        else (false, some (⟨1, d k⟩ : MeasureResult))) k)
      = if k = j then ⟨0, 0⟩ else ⟨1, d k⟩ := fun k => by
    by_cases hij : k = j <;> simp [contrib, hij, MeasureResult.empty]
  simp only [e1]
  have ht : ∀ k, ((if k = j then (⟨0, 0⟩ : MeasureResult) else ⟨1, d k⟩).times)
      = if k = j then 0 else 1 := fun k => by by_cases hij : k = j <;> simp [hij]
  have he : ∀ k, ((if k = j then (⟨0, 0⟩ : MeasureResult) else ⟨1, d k⟩).total_elapsed)
      = if k = j then 0 else d k := fun k => by by_cases hij : k = j <;> simp [hij]
  simp only [ht, he]

/-- Witness for claim C5: three repetitions whose second one only passes yield
two recorded spans and no error. -/
theorem measure_function_with_times_skip_contributes_empty_witness :
    1 < 3 ∧
      measure_function_with_times 3
          (scripted fun k => if k = 1 then (true, none) else (false, some ⟨1, k + 10⟩)) 0 =
        (3,
          Except.ok
            ⟨∑ k in Finset.range 3, (if k = 1 then 0 else 1),
             ∑ k in Finset.range 3, (if k = 1 then 0 else k + 10)⟩) :=
  ⟨by decide,
    measure_function_with_times_skip_contributes_empty 3 1 (fun k => k + 10) (by decide)⟩

/-- Claim C6: the claim says a background worker whose repetition neither
measures nor passes reports the missing-measurement error back through the
result channel as a distinguishable failure value, failing the whole call.
On the source the worker instead hits `.ok_or(..).unwrap()` and panics: for a
callback that never measures nor passes, the worker closure terminates
without ever sending anything on the channel (`some none` - the panic path -
for every clock, duration and fuel), so no failure value reaches the
foreground thread, which stays blocked on `rx.recv()`. -/
theorem mtb_worker_sends_nothing_on_missing (duration : Nat) (clock : Nat → Nat)
    (fuel : Nat) :
    mtb_worker_run duration clock fuel (scripted fun _ => (false, none)) 0 = some none :=
  rfl

/-- Claim C7: for every duration budget, zero included, the duration-bounded
orchestrator completes at least one full repetition before checking the
deadline, so when every repetition records at least one span the returned
result has `times >= 1` (whenever the run terminates at all, i.e. some
deadline check within the fuel succeeds). -/
theorem bench_function_with_duration_at_least_one (duration : Nat) (clock : Nat → Nat)
    (fuel : Nat) (script : Nat → Bool × Option MeasureResult)
    (hmeas : ∀ i, (script i).1 = false ∧ ∃ r, (script i).2 = some r ∧ 1 ≤ r.times)
    (hterm : ∃ i, i < fuel ∧ duration ≤ clock i) :
    ∃ s' res,
      bench_function_with_duration duration clock fuel (scripted script) 0 =
          some (s', Except.ok res) ∧
        1 ≤ res.times := by
  obtain ⟨hb, r, hr, hrt⟩ := hmeas 0
  rw [bench_function_with_duration]
  simp only [scripted, MeasurerLib.default, hb, hr, Bool.false_eq_true, if_false]
  obtain ⟨s', res, heq, hle⟩ := bfd_loop_times_lower script clock duration hmeas fuel 0 1
    ⟨0, none, false⟩ r (by simpa using hterm)
  exact ⟨s', res, heq, by omega⟩

/-- Witness for claim C7: a zero duration budget with an immediately satisfied
deadline still yields a result with at least one recorded span. -/
theorem bench_function_with_duration_at_least_one_witness :
    (∀ i : Nat,
        ((fun _ => ((false : Bool), some (⟨1, 7⟩ : MeasureResult))) i).1 = false ∧
          ∃ r, ((fun _ => ((false : Bool), some (⟨1, 7⟩ : MeasureResult))) i).2 = some r ∧
            1 ≤ r.times) ∧
      (∃ i, i < 1 ∧ (0 : Nat) ≤ (fun _ => 0) i) ∧
      ∃ s' res,
        bench_function_with_duration 0 (fun _ => 0) 1
            (scripted fun _ => (false, some ⟨1, 7⟩)) 0 =
            some (s', Except.ok res) ∧
          1 ≤ res.times :=
  ⟨fun _ => ⟨rfl, ⟨1, 7⟩, rfl, by decide⟩, ⟨0, by decide, by decide⟩,
    bench_function_with_duration_at_least_one 0 (fun _ => 0) 1
      (fun _ => (false, some ⟨1, 7⟩))
      (fun _ => ⟨rfl, ⟨1, 7⟩, rfl, by decide⟩) ⟨0, by decide, by decide⟩⟩

/-- Claim C8: on every result with `times > 0`, `MeasureResult::elapsed`
returns exactly the truncating integer division of the total elapsed
nanoseconds by the span count, re-expressed as a duration. -/
theorem elapsed_eq_total_div_times (r : MeasureResult) (h : 0 < r.times) :
    r.elapsed = r.total_elapsed / r.times := by
  show r.total_elapsed / r.times / 1000000000 * 1000000000 +
      r.total_elapsed / r.times % 1000000000 = r.total_elapsed / r.times
  omega

/-- Witness for claim C8: a result of two spans totalling 7ns has average
latency `7 / 2 = 3` nanoseconds. -/
theorem elapsed_eq_total_div_times_witness :
    0 < (2 : Nat) ∧ (MeasureResult.mk 2 7).elapsed = 7 / 2 :=
  ⟨by decide, elapsed_eq_total_div_times ⟨2, 7⟩ (by decide)⟩

/-- Claim C9: the claim says `measure_for_loop` over a length-`L` sequence with
no `Break` invokes the body exactly `L` times and leaves an accumulated
aggregate with `count = L`.  The source does invoke and individually time the
body exactly `L` times, passing each element in order (the logging closure
below returns the full element list), but afterwards the measurer holds no
aggregate at all: it stores the single truncating average of the span
durations - here spans of 10ns and 20ns leave `Ok(15ns)`, not a result with
count 2 and total 30ns. -/
theorem measure_for_loop_stores_average :
    Measurer.default.measure_for_loop
        (fun (log : List Nat) (x : Nat) => (log ++ [x], MeasureLoopResult.Continue))
        (fun k => Except.ok (10 * (k + 1))) [0, 1] [] =
      some (([0, 1] : List Nat), ⟨0, some (Except.ok 15)⟩) ∧ (15 : Nat) ≠ 10 + 20 :=
  ⟨rfl, by decide⟩

/-- Claim C10: `Measurer::is_measured` reports the absence, not the presence,
of a recorded measurement: it returns `true` on a freshly constructed
measurer, and `false` after a successful `measure`, `measure_loop`,
`measure_for_loop` or `measure_while_loop` call that records a result. -/
theorem is_measured_polarity (d : Nat) :
    Measurer.default.is_measured = true ∧
    (Measurer.default.measure id (Except.ok d) ()).map (fun q => q.2.is_measured) =
      some false ∧
    (Measurer.default.measure_loop
        (fun (s : Unit) _ => (s, MeasureLoopResult.Break)) (fun _ => Except.ok d) 1 ()).map
      (fun q => q.2.is_measured) = some false ∧
    (Measurer.default.measure_for_loop
        (fun (s : Unit) (_ : Nat) => (s, MeasureLoopResult.Continue))
        (fun _ => Except.ok d) [0] ()).map (fun q => q.2.is_measured) = some false ∧
    (Measurer.default.measure_while_loop
        (fun (s : Unit) k => (s, decide (k = 0)))
        (fun s _ => (s, MeasureLoopResult.Continue)) (fun _ => Except.ok d) 2 ()).map
      (fun q => q.2.is_measured) = some false :=
  ⟨rfl, rfl, rfl, rfl, rfl⟩
